import Mathlib

/-!
Verification of the sound-generation script (src/scripts/generate_sounds.py).

The script is embedded shallowly:
* Python/numpy floating-point arithmetic is idealized as exact rational
  arithmetic (`ℚ`);
* `numpy.sin` is an uninterpreted parameter `sin : ℚ → ℚ` (where a claim
  needs it, the hypothesis `∀ x, |sin x| ≤ 1` is assumed);
* numpy arrays are `List ℚ`;
* Python runtime errors (broadcast errors, `ZeroDivisionError`) are modelled
  by `Option`: `none` means the call raises;
* the filesystem effects of `save_wav` / `convert_to_mp3` are modelled by an
  explicit record of the two files a single sound can occupy;
* paths are lists of characters, with Python `str.replace` modelled by
  `replaceAll`.
-/

namespace MathApp

/-- Python `int()` applied to a nonnegative-or-negative rational: truncation
toward zero. -/
def ratTrunc (q : ℚ) : ℤ :=
  if 0 ≤ q then ⌊q⌋ else ⌈q⌉

/-- Python `int()` of a (nonnegative in all uses) rational, as a natural
number: `int(q)` truncates toward zero. -/
def pyIntNat (q : ℚ) : ℕ :=
  (ratTrunc q).toNat

/-- `SAMPLE_RATE = 44100` (source line 11). -/
def SAMPLE_RATE : ℚ := 44100

/-- The exact rational value of the IEEE-754 binary64 constant `numpy.pi`. -/
def np_pi : ℚ := 884279719003555 / 281474976710656

/-- `numpy.linspace a b n` with the default `endpoint=True`:
`n` evenly spaced points from `a` to `b` inclusive (for `n = 1` numpy
returns `[a]`). -/
def linspaceE (a b : ℚ) (n : ℕ) : List ℚ :=
  if n ≤ 1 then List.replicate n a
  else (List.range n).map (fun k : ℕ => a + (b - a) * (k : ℚ) / ((n : ℚ) - 1))

/-- `numpy.linspace a b n False` (`endpoint=False`, as used for the time
axes in `generate_tone`): `n` points `a + (b-a)*k/n`, `k < n`. -/
def linspaceNE (a b : ℚ) (n : ℕ) : List ℚ :=
  (List.range n).map (fun k : ℕ => a + (b - a) * (k : ℚ) / (n : ℚ))

/-- The `frequencies` argument of `generate_tone`: a single frequency or a
Python list of frequencies. -/
inductive Frequencies where
  | single (f : ℚ)
  | seq (fs : List ℚ)

/-- The segment boundaries computed by the multi-frequency branch of
`generate_tone` (source lines 22–26): `start = i * (samples / L)` and
`end = start + samples / L` for `i < L - 1`, `end = samples` for the last
segment. -/
def segmentBounds (samples L : ℕ) : List (ℕ × ℕ) :=
  (List.range L).map (fun i =>
    (i * (samples / L), if i < L - 1 then i * (samples / L) + samples / L else samples))

/-- `audio[:fis] *= np.linspace(0, 1, fis)` (source line 36).
`audio[:fis]` has length `min fis n`; the right-hand side has length `fis`.
The in-place product is defined when `fis ≤ n` (elementwise on the prefix),
or when `fis = 1 > n` (numpy broadcasts a length-1 operand over the empty
slice); otherwise numpy raises a broadcast `ValueError`, modelled `none`. -/
def applyFadeIn (audio : List ℚ) (fis : ℕ) : Option (List ℚ) :=
  if fis ≤ audio.length then
    some (((audio.take fis).zipWith (fun x y => x * y) (linspaceE 0 1 fis)) ++ audio.drop fis)
  else if fis = 1 then some audio
  else none

/-- `audio[-fos:] *= np.linspace(1, 0, fos)` (source line 37).
For `fos = 0` the slice `audio[-0:]` is the *whole* array while the
right-hand side is empty, so the in-place product raises unless the array
itself is empty.  For `fos ≥ 1` the slice is the last `min fos n` samples;
the product is defined when `fos ≤ n`, or (by broadcasting) when
`fos = 1 > n`; otherwise it raises. -/
def applyFadeOut (audio : List ℚ) (fos : ℕ) : Option (List ℚ) :=
  if fos = 0 then
    if audio.length = 0 then some audio else none
  else if fos ≤ audio.length then
    some (audio.take (audio.length - fos) ++
      ((audio.drop (audio.length - fos)).zipWith (fun x y => x * y) (linspaceE 1 0 fos)))
  else if fos = 1 then some audio
  else none

/-- The waveform built by the multi-frequency branch (source lines 22–28):
`audio = np.zeros(samples)` followed by the slice assignments
`audio[start:end] = np.sin(2*np.pi*freq*segment_t)`.  Because the segments
given by `segmentBounds` are contiguous, start at 0 and end at `samples`
(proved below), the resulting array is the concatenation of the per-segment
sine arrays. -/
def multiWave (sin : ℚ → ℚ) (fs : List ℚ) (samples : ℕ) : List ℚ :=
  ((segmentBounds samples fs.length).zip fs).map (fun p =>
    (linspaceNE 0 (((p.1.2 - p.1.1 : ℕ) : ℚ) / SAMPLE_RATE) (p.1.2 - p.1.1)).map
      (fun x => sin (2 * np_pi * p.2 * x))) |>.flatten

/-- The raw waveform of `generate_tone` before the fades (source lines
19–30): a single sine over the whole time axis, or the per-segment sines.
`none` is the `ZeroDivisionError` raised by `samples // len(frequencies)`
on an empty list. -/
def toneWave (sin : ℚ → ℚ) (frequencies : Frequencies) (duration : ℚ)
    (samples : ℕ) : Option (List ℚ) :=
  match frequencies with
  | .single f => some ((linspaceNE 0 duration samples).map (fun x => sin (2 * np_pi * f * x)))
  | .seq fs => if fs.length = 0 then none else some (multiWave sin fs samples)

/-- The fade and scale steps of `generate_tone` (source lines 32–41):
fade-in, fade-out, then multiplication of the whole buffer by 0.7
(an exception in an earlier step propagates past the later ones). -/
def fadeAndScale (audio : List ℚ) (fis fos : ℕ) : Option (List ℚ) :=
  (applyFadeIn audio fis).bind (fun a2 =>
    (applyFadeOut a2 fos).map (fun a3 => a3.map (fun s => s * (7/10))))

/-- `generate_tone` (source lines 14–41).  `sin` abstracts `numpy.sin`.
Returns `none` when the Python call raises: `ZeroDivisionError` on an empty
frequency list (line 22), or a broadcast `ValueError` in the fade steps
(lines 36–37). -/
def generate_tone (sin : ℚ → ℚ) (frequencies : Frequencies) (duration : ℚ)
    (fade_in : ℚ := 1/100) (fade_out : ℚ := 5/100) : Option (List ℚ) :=
  (toneWave sin frequencies duration (pyIntNat (SAMPLE_RATE * duration))).bind (fun audio =>
    fadeAndScale audio (pyIntNat (SAMPLE_RATE * fade_in)) (pyIntNat (SAMPLE_RATE * fade_out)))

/-- Wrap an integer into the 16-bit signed range, as numpy's float-to-int16
cast does on overflow.  On the in-range values (all that the script
produces) it is the identity. -/
def wrap16 (z : ℤ) : ℤ := (z + 32768) % 65536 - 32768

/-- `np.int16(s * 32767)` applied to one sample (source line 48): the
product is truncated toward zero by the C-style float-to-integer cast. -/
def quantizeSample (s : ℚ) : ℤ := wrap16 (ratTrunc (s * 32767))

/-- The 16-bit PCM data `save_wav` writes: `np.int16(audio * 32767)`
(source line 48). -/
def save_wav_data (audio : List ℚ) : List ℤ := audio.map quantizeSample

/-- The payload a file of one sound can hold: the uncompressed RIFF/WAVE
container around given 16-bit samples, or the compressed MP3 output of the
encoder. -/
inductive Payload where
  | wav (data : List ℤ)
  | mp3
deriving DecidableEq

/-- Modelled from the spec: the Python `wave` stdlib module (not part of
this repository) serializes mono 16-bit 44100 Hz PCM as a standard 44-byte
RIFF/WAVE header followed by 2 bytes per sample, so the byte size of the
uncompressed container is `44 + 2 * n`; an MP3 payload's size is left
unspecified. -/
def payloadSize : Payload → Option ℕ
  | .wav data => some (44 + 2 * data.length)
  | .mp3 => none

/-- The two files a single sound can occupy: the intermediate `.wav` path
and the final `.mp3` path. -/
structure SoundFiles where
  wavFile : Option Payload
  mp3File : Option Payload
deriving DecidableEq

/-- The empty directory state for one sound. -/
def noFiles : SoundFiles := ⟨none, none⟩

/-- Filesystem effect of `save_wav` (source lines 43–56): creates or
overwrites the `.wav` file with the quantized PCM container. -/
def save_wav_state (audio : List ℚ) (st : SoundFiles) : SoundFiles :=
  { wavFile := some (Payload.wav (save_wav_data audio)), mp3File := st.mp3File }

/-- The three ways the `subprocess.run(['ffmpeg', ...])` call can end. -/
inductive EncoderOutcome where
  | success        -- encoder found, exit status 0
  | notFound       -- executable absent: `FileNotFoundError`
  | failedNonzero  -- encoder found, nonzero exit status
deriving DecidableEq

/-- The Python exceptions `convert_to_mp3` can let escape. -/
inductive PyError where
  | calledProcessError  -- raised by `subprocess.run(..., check=True)`
deriving DecidableEq

/-- `convert_to_mp3` (source lines 58–75), as a transformer of the
per-sound file state, returning the function's boolean result.
* `success`: ffmpeg writes the `.mp3`, then `os.remove(wav_path)` deletes
  the `.wav`; returns `True`.
* `notFound` (`FileNotFoundError` caught, lines 70–75): the `.wav` file is
  renamed to the `.mp3` path with its payload untouched; returns `False`.
* `failedNonzero`: `check=True` makes `subprocess.run` raise
  `subprocess.CalledProcessError`, which the `except FileNotFoundError`
  clause does not catch, so the exception escapes before `os.remove`;
  the file state is unchanged. -/
def convert_to_mp3 (outcome : EncoderOutcome) (st : SoundFiles) :
    Except PyError (Bool × SoundFiles) :=
  match outcome with
  | .success => .ok (true, { wavFile := none, mp3File := some Payload.mp3 })
  | .notFound => .ok (false, { wavFile := none, mp3File := st.wavFile })
  | .failedNonzero => .error .calledProcessError

/-! ### Path computations (source lines 45 and 60)

Paths and filenames are lists of characters; Python `str.replace`, which
replaces every non-overlapping occurrence left to right, is `replaceAll`. -/

/-- Python strings, as lists of characters. -/
abbrev PyStr := List Char

/-- Whether `pat` is an initial segment of `s`. -/
def isPrefixList : PyStr → PyStr → Bool
  | [], _ => true
  | _ :: _, [] => false
  | a :: pat, b :: s => a == b && isPrefixList pat s

/-- Whether `pat` occurs as a contiguous substring of `s`. -/
def containsSub (pat : PyStr) : PyStr → Bool
  | [] => isPrefixList pat []
  | c :: rest => isPrefixList pat (c :: rest) || containsSub pat rest

/-- Python `s.replace(pat, rep)` for a nonempty `pat`: scan left to right,
replacing each occurrence of `pat` and resuming after it. -/
def replaceAll (pat rep : PyStr) : PyStr → PyStr
  | [] => []
  | c :: rest =>
    if pat ≠ [] ∧ isPrefixList pat (c :: rest) = true then
      rep ++ replaceAll pat rep (rest.drop (pat.length - 1))
    else
      c :: replaceAll pat rep rest
termination_by s => s.length
decreasing_by
  · simp only [List.length_cons, List.length_drop]
    omega
  · simp

/-- The literal `'.mp3'`. -/
def mp3ext : PyStr := ['.', 'm', 'p', '3']

/-- The literal `'.wav'`. -/
def wavext : PyStr := ['.', 'w', 'a', 'v']

/-- `OUTPUT_DIR` (source line 12). -/
def OUTPUT_DIR : PyStr :=
  "c:\\Users\\Nyx\\Desktop\\terapia\\apk\\math-app\\assets\\sounds".toList

/-- `os.path.join` on the Windows paths the script uses: directory,
separator, name. -/
def osPathJoin (dir name : PyStr) : PyStr := dir ++ ['\\'] ++ name

/-- The path `save_wav` writes to (source line 45):
`os.path.join(OUTPUT_DIR, filename.replace('.mp3', '.wav'))`. -/
def save_wav_path (filename : PyStr) : PyStr :=
  osPathJoin OUTPUT_DIR (replaceAll mp3ext wavext filename)

/-- The output path computed by `convert_to_mp3` (source line 60):
`wav_path.replace('.wav', '.mp3')`. -/
def convert_mp3_path (wav_path : PyStr) : PyStr :=
  replaceAll wavext mp3ext wav_path

/-! ### The three sounds driven by `main` (source lines 77–95) -/

/-- Frequencies of the `correct` sound. -/
def correctFreqs : Frequencies := .seq [523, 659, 784]

/-- Frequencies of the `incorrect` sound. -/
def incorrectFreqs : Frequencies := .seq [392, 330]

/-- Frequency of the `click` sound. -/
def clickFreqs : Frequencies := .single 880

/-- Byte size of the fallback artifact of one sound when the encoder is
absent: synthesize, write the WAV container, rename it to the `.mp3` name,
and measure the payload that now sits at the `.mp3` path.  `none` when
synthesis raises, the transcode step raises, or the final payload is not an
uncompressed container of known size. -/
def fallbackSize (sin : ℚ → ℚ) (frequencies : Frequencies)
    (duration fade_in fade_out : ℚ) : Option ℕ :=
  match generate_tone sin frequencies duration fade_in fade_out with
  | none => none
  | some buf =>
    match convert_to_mp3 .notFound (save_wav_state buf noFiles) with
    | .error _ => none
    | .ok (_, st) => st.mp3File.bind payloadSize

/-! ### Basic length and success lemmas -/

theorem linspaceNE_length (a b : ℚ) (n : ℕ) : (linspaceNE a b n).length = n := by
  simp only [linspaceNE, List.length_map, List.length_range]

theorem linspaceE_length (a b : ℚ) (n : ℕ) : (linspaceE a b n).length = n := by
  unfold linspaceE
  split
  · simp only [List.length_replicate]
  · simp only [List.length_map, List.length_range]

theorem applyFadeIn_length {audio r : List ℚ} {fis : ℕ}
    (h : applyFadeIn audio fis = some r) : r.length = audio.length := by
  unfold applyFadeIn at h
  split at h
  · rename_i hle
    simp only [Option.some.injEq] at h
    subst h
    simp [List.length_zipWith, linspaceE_length]
    omega
  · split at h
    · simp only [Option.some.injEq] at h
      subst h
      rfl
    · exact absurd h (by simp)

theorem applyFadeIn_isSome {audio : List ℚ} {fis : ℕ} (h : fis ≤ audio.length) :
    applyFadeIn audio fis =
      some (((audio.take fis).zipWith (fun x y => x * y) (linspaceE 0 1 fis)) ++
        audio.drop fis) := by
  unfold applyFadeIn
  simp [h]

theorem applyFadeOut_length {audio r : List ℚ} {fos : ℕ}
    (h : applyFadeOut audio fos = some r) : r.length = audio.length := by
  unfold applyFadeOut at h
  split at h
  · split at h
    · simp only [Option.some.injEq] at h
      subst h
      rfl
    · exact absurd h (by simp)
  · split at h
    · rename_i hle
      simp only [Option.some.injEq] at h
      subst h
      simp [List.length_zipWith, linspaceE_length]
      omega
    · split at h
      · simp only [Option.some.injEq] at h
        subst h
        rfl
      · exact absurd h (by simp)

theorem applyFadeOut_isSome_of_pos {audio : List ℚ} {fos : ℕ} (h1 : 1 ≤ fos)
    (h2 : fos ≤ audio.length) :
    applyFadeOut audio fos =
      some (audio.take (audio.length - fos) ++
        ((audio.drop (audio.length - fos)).zipWith (fun x y => x * y)
          (linspaceE 1 0 fos))) := by
  unfold applyFadeOut
  rw [if_neg (by omega), if_pos h2]

theorem applyFadeOut_zero_nil : applyFadeOut [] 0 = some [] := by
  simp [applyFadeOut]

theorem applyFadeOut_zero_of_ne {audio : List ℚ} (h : audio.length ≠ 0) :
    applyFadeOut audio 0 = none := by
  simp [applyFadeOut, h]

/-! ### Segment coverage (multi-frequency branch) -/

theorem segmentBounds_length (samples L : ℕ) : (segmentBounds samples L).length = L := by
  simp [segmentBounds]

theorem range_map_range'_flatten (seg : ℕ) :
    ∀ n : ℕ, (((List.range n).map (fun i => List.range' (i * seg) seg)).flatten =
      List.range' 0 (n * seg))
  | 0 => by simp
  | n + 1 => by
    rw [List.range_succ, List.map_append, List.flatten_append,
      range_map_range'_flatten seg n]
    simp only [List.map_cons, List.map_nil, List.flatten_cons, List.flatten_nil,
      List.append_nil]
    have h := List.range'_append_1 0 (n * seg) seg
    rw [Nat.zero_add] at h
    rw [h, Nat.succ_mul, Nat.add_comm (n * seg) seg]

theorem segmentBounds_split {L : ℕ} (samples : ℕ) (hL : 1 ≤ L) :
    segmentBounds samples L =
      (List.range (L - 1)).map
        (fun i => (i * (samples / L), i * (samples / L) + samples / L)) ++
      [((L - 1) * (samples / L), samples)] := by
  obtain ⟨n, rfl⟩ : ∃ n, L = n + 1 := ⟨L - 1, by omega⟩
  unfold segmentBounds
  rw [List.range_succ, List.map_append]
  congr 1
  · exact List.map_congr_left (fun i hi => by
      rw [List.mem_range] at hi
      rw [if_pos (show i < n + 1 - 1 by omega)])
  · simp

theorem sub_one_mul_div_le (samples L : ℕ) : (L - 1) * (samples / L) ≤ samples :=
  le_trans (Nat.mul_le_mul_right _ (Nat.sub_le L 1))
    (by rw [Nat.mul_comm]; exact Nat.div_mul_le_self samples L)

theorem segmentBounds_flatten_range {L : ℕ} (samples : ℕ) (hL : 1 ≤ L) :
    ((segmentBounds samples L).map (fun p => List.range' p.1 (p.2 - p.1))).flatten =
      List.range samples := by
  rw [segmentBounds_split samples hL, List.map_append, List.flatten_append]
  simp only [List.map_map]
  have h1 : ((List.range (L - 1)).map
      ((fun p : ℕ × ℕ => List.range' p.1 (p.2 - p.1)) ∘
        (fun i => (i * (samples / L), i * (samples / L) + samples / L)))).flatten =
      List.range' 0 ((L - 1) * (samples / L)) := by
    rw [← range_map_range'_flatten (samples / L) (L - 1)]
    congr 1
    exact List.map_congr_left (fun i _ => by simp)
  rw [h1]
  simp only [List.map_cons, List.map_nil, List.flatten_cons, List.flatten_nil,
    List.append_nil]
  have h2 := List.range'_append_1 0 ((L - 1) * (samples / L))
    (samples - (L - 1) * (samples / L))
  rw [Nat.zero_add] at h2
  rw [h2, Nat.sub_add_cancel (sub_one_mul_div_le samples L), List.range_eq_range']

theorem segmentBounds_sum_lengths {L : ℕ} (samples : ℕ) (hL : 1 ≤ L) :
    (((segmentBounds samples L).map (fun p => p.2 - p.1)).sum = samples) := by
  have h := congrArg List.length (segmentBounds_flatten_range samples hL)
  simpa only [List.length_flatten, List.map_map, Function.comp_def,
    List.length_range', List.length_range] using h

/-! ### Arithmetic facts about the Python `int` conversion -/

theorem ratTrunc_of_nonneg {q : ℚ} (h : 0 ≤ q) : ratTrunc q = ⌊q⌋ := if_pos h

theorem pyIntNat_mono {a b : ℚ} (ha : 0 ≤ a) (hab : a ≤ b) :
    pyIntNat a ≤ pyIntNat b := by
  unfold pyIntNat
  rw [ratTrunc_of_nonneg ha, ratTrunc_of_nonneg (ha.trans hab)]
  exact Int.toNat_le_toNat (Int.floor_le_floor hab)

theorem pyIntNat_fade_le {fade d : ℚ} (hf : 0 ≤ fade) (hfd : fade ≤ d) :
    pyIntNat (SAMPLE_RATE * fade) ≤ pyIntNat (SAMPLE_RATE * d) :=
  pyIntNat_mono (mul_nonneg (by norm_num [SAMPLE_RATE]) hf)
    (mul_le_mul_of_nonneg_left hfd (by norm_num [SAMPLE_RATE]))

/-! ### Waveform stage -/

theorem multiWave_length (sin : ℚ → ℚ) {fs : List ℚ} (hfs : fs ≠ []) (samples : ℕ) :
    (multiWave sin fs samples).length = samples := by
  unfold multiWave
  rw [List.length_flatten, List.map_map]
  have hmap : (((segmentBounds samples fs.length).zip fs).map
      (List.length ∘ fun p : (ℕ × ℕ) × ℚ =>
        (linspaceNE 0 (((p.1.2 - p.1.1 : ℕ) : ℚ) / SAMPLE_RATE) (p.1.2 - p.1.1)).map
          (fun x => sin (2 * np_pi * p.2 * x)))) =
      (((segmentBounds samples fs.length).zip fs).map
        ((fun q : ℕ × ℕ => q.2 - q.1) ∘ Prod.fst)) :=
    List.map_congr_left (fun p _ => by
      simp only [Function.comp_apply, List.length_map, linspaceNE_length])
  rw [hmap, ← List.map_map, List.map_fst_zip _ _ (le_of_eq (segmentBounds_length _ _))]
  exact segmentBounds_sum_lengths samples (List.length_pos.mpr hfs)

theorem toneWave_length {sin : ℚ → ℚ} {fr : Frequencies} {d : ℚ} {samples : ℕ}
    {audio : List ℚ} (h : toneWave sin fr d samples = some audio) :
    audio.length = samples := by
  cases fr with
  | single f =>
    simp only [toneWave, Option.some.injEq] at h
    subst h
    rw [List.length_map, linspaceNE_length]
  | seq fs =>
    simp only [toneWave] at h
    split at h
    · exact Option.noConfusion h
    · rename_i hfs
      simp only [Option.some.injEq] at h
      subst h
      exact multiWave_length sin (fun hnil => hfs (by rw [hnil]; rfl)) samples

theorem toneWave_some_single (sin : ℚ → ℚ) (f d : ℚ) (samples : ℕ) :
    toneWave sin (.single f) d samples =
      some ((linspaceNE 0 d samples).map (fun x => sin (2 * np_pi * f * x))) := rfl

theorem toneWave_some_seq (sin : ℚ → ℚ) {fs : List ℚ} (hfs : fs ≠ []) (d : ℚ)
    (samples : ℕ) :
    toneWave sin (.seq fs) d samples = some (multiWave sin fs samples) := by
  simp only [toneWave]
  rw [if_neg (Nat.pos_iff_ne_zero.mp (List.length_pos.mpr hfs))]

/-! ### Fade-and-scale stage -/

theorem fadeAndScale_length {audio r : List ℚ} {fis fos : ℕ}
    (h : fadeAndScale audio fis fos = some r) : r.length = audio.length := by
  unfold fadeAndScale at h
  rw [Option.bind_eq_some] at h
  obtain ⟨a2, hin, h⟩ := h
  rw [Option.map_eq_some'] at h
  obtain ⟨a3, hout, h⟩ := h
  subst h
  rw [List.length_map, applyFadeOut_length hout, applyFadeIn_length hin]

theorem fadeAndScale_some {audio : List ℚ} {fis fos : ℕ} (hfis : fis ≤ audio.length)
    (hfos : 1 ≤ fos ∧ fos ≤ audio.length ∨ fos = 0 ∧ audio.length = 0) :
    ∃ r, fadeAndScale audio fis fos = some r := by
  unfold fadeAndScale
  rw [applyFadeIn_isSome hfis, Option.some_bind]
  have hlen : (((audio.take fis).zipWith (fun x y => x * y) (linspaceE 0 1 fis)) ++
      audio.drop fis).length = audio.length := by
    simp only [List.length_append, List.length_zipWith, List.length_take,
      linspaceE_length, List.length_drop]
    omega
  rcases hfos with ⟨h1, h2⟩ | ⟨h1, h2⟩
  · rw [applyFadeOut_isSome_of_pos h1 (hlen ▸ h2)]
    exact ⟨_, rfl⟩
  · have hnil : ((audio.take fis).zipWith (fun x y => x * y) (linspaceE 0 1 fis)) ++
        audio.drop fis = [] := List.length_eq_zero.mp (hlen.trans h2)
    rw [hnil, h1, applyFadeOut_zero_nil]
    exact ⟨_, rfl⟩

theorem fadeAndScale_none_of_fos_zero {audio : List ℚ} {fis : ℕ}
    (hfis : fis ≤ audio.length) (hne : audio.length ≠ 0) :
    fadeAndScale audio fis 0 = none := by
  unfold fadeAndScale
  rw [applyFadeIn_isSome hfis, Option.some_bind]
  rw [applyFadeOut_zero_of_ne (by
    simp only [List.length_append, List.length_zipWith, List.length_take,
      linspaceE_length, List.length_drop]
    omega)]
  rfl

/-! ### Length and success of `generate_tone` -/

theorem generate_tone_length {sin : ℚ → ℚ} {fr : Frequencies} {d fi fo : ℚ}
    {buf : List ℚ} (h : generate_tone sin fr d fi fo = some buf) :
    buf.length = pyIntNat (SAMPLE_RATE * d) := by
  unfold generate_tone at h
  rw [Option.bind_eq_some] at h
  obtain ⟨audio, hw, h⟩ := h
  rw [fadeAndScale_length h, toneWave_length hw]

/-- The preconditions on the frequency input stated by the spec, plus
nonemptiness of the list in the multi-frequency case. -/
def freqPrecond : Frequencies → Prop
  | .single f => 0 < f
  | .seq fs => fs ≠ [] ∧ ∀ f ∈ fs, 0 < f

theorem generate_tone_some (sin : ℚ → ℚ) (fr : Frequencies) (d fi fo : ℚ)
    (hfr : freqPrecond fr) (_hd : 0 < d) (hfi : 0 ≤ fi) (hfo : 0 ≤ fo)
    (hsum : fi + fo ≤ d)
    (hout : 1 ≤ pyIntNat (SAMPLE_RATE * fo) ∨ pyIntNat (SAMPLE_RATE * d) = 0) :
    ∃ buf, generate_tone sin fr d fi fo = some buf ∧
      buf.length = pyIntNat (SAMPLE_RATE * d) := by
  have hfis : pyIntNat (SAMPLE_RATE * fi) ≤ pyIntNat (SAMPLE_RATE * d) :=
    pyIntNat_fade_le hfi (by linarith)
  have hfos : pyIntNat (SAMPLE_RATE * fo) ≤ pyIntNat (SAMPLE_RATE * d) :=
    pyIntNat_fade_le hfo (by linarith)
  have hwave : ∃ audio, toneWave sin fr d (pyIntNat (SAMPLE_RATE * d)) = some audio := by
    match fr with
    | .single f => exact ⟨_, toneWave_some_single sin f d _⟩
    | .seq fs => exact ⟨_, toneWave_some_seq sin hfr.1 d _⟩
  obtain ⟨audio, haudio⟩ := hwave
  have hlen : audio.length = pyIntNat (SAMPLE_RATE * d) := toneWave_length haudio
  have hcond : 1 ≤ pyIntNat (SAMPLE_RATE * fo) ∧
      pyIntNat (SAMPLE_RATE * fo) ≤ audio.length ∨
      pyIntNat (SAMPLE_RATE * fo) = 0 ∧ audio.length = 0 := by
    rcases hout with h1 | h1
    · exact Or.inl ⟨h1, hlen ▸ hfos⟩
    · exact Or.inr ⟨Nat.le_zero.mp (h1 ▸ hfos), hlen.trans h1⟩
  obtain ⟨r, hr⟩ := fadeAndScale_some (hlen ▸ hfis) hcond
  refine ⟨r, ?_, ?_⟩
  · unfold generate_tone
    rw [haudio, Option.some_bind]
    exact hr
  · rw [fadeAndScale_length hr, hlen]

/-! ### Amplitude bounds -/

theorem abs_le_one_of_mem_01 {y : ℚ} (h1 : 0 ≤ y) (h2 : y ≤ 1) : |y| ≤ 1 :=
  abs_le.mpr ⟨by linarith, h2⟩

theorem mem_linspaceE_01 {n : ℕ} {x : ℚ} (h : x ∈ linspaceE 0 1 n) :
    0 ≤ x ∧ x ≤ 1 := by
  unfold linspaceE at h
  split at h
  · rw [List.eq_of_mem_replicate h]
    norm_num
  · rename_i hn
    rw [List.mem_map] at h
    obtain ⟨k, hk, rfl⟩ := h
    rw [List.mem_range] at hk
    have hkn : (k:ℚ) + 1 ≤ (n:ℚ) := by exact_mod_cast hk
    have hpos : (0:ℚ) < (n:ℚ) - 1 := by
      have : (2:ℚ) ≤ (n:ℚ) := by exact_mod_cast (by omega : 2 ≤ n)
      linarith
    have heq : (0:ℚ) + (1 - 0) * (k:ℚ) / ((n:ℚ) - 1) = (k:ℚ) / ((n:ℚ) - 1) := by
      ring
    rw [heq]
    constructor
    · exact div_nonneg (Nat.cast_nonneg k) hpos.le
    · rw [div_le_one hpos]
      linarith

theorem mem_linspaceE_10 {n : ℕ} {x : ℚ} (h : x ∈ linspaceE 1 0 n) :
    0 ≤ x ∧ x ≤ 1 := by
  unfold linspaceE at h
  split at h
  · rw [List.eq_of_mem_replicate h]
    norm_num
  · rename_i hn
    rw [List.mem_map] at h
    obtain ⟨k, hk, rfl⟩ := h
    rw [List.mem_range] at hk
    have hkn : (k:ℚ) + 1 ≤ (n:ℚ) := by exact_mod_cast hk
    have hpos : (0:ℚ) < (n:ℚ) - 1 := by
      have : (2:ℚ) ≤ (n:ℚ) := by exact_mod_cast (by omega : 2 ≤ n)
      linarith
    have heq : (1:ℚ) + (0 - 1) * (k:ℚ) / ((n:ℚ) - 1) = 1 - (k:ℚ) / ((n:ℚ) - 1) := by
      ring
    rw [heq]
    have hk0 : 0 ≤ (k:ℚ) / ((n:ℚ) - 1) := div_nonneg (Nat.cast_nonneg k) hpos.le
    have hk1 : (k:ℚ) / ((n:ℚ) - 1) ≤ 1 := by
      rw [div_le_one hpos]
      linarith
    constructor <;> linarith

theorem abs_le_one_zipWith {xs ys : List ℚ}
    (hx : ∀ x ∈ xs, |x| ≤ 1) (hy : ∀ y ∈ ys, |y| ≤ 1) :
    ∀ z ∈ List.zipWith (fun a b => a * b) xs ys, |z| ≤ (1:ℚ) := by
  induction xs generalizing ys with
  | nil => simp
  | cons x xs ih =>
    cases ys with
    | nil => simp
    | cons y ys =>
      intro z hz
      rw [List.zipWith_cons_cons, List.mem_cons] at hz
      rcases hz with rfl | hz
      · calc |x * y| = |x| * |y| := abs_mul x y
          _ ≤ 1 * 1 :=
            mul_le_mul (hx x (by simp)) (hy y (by simp)) (abs_nonneg y) zero_le_one
          _ = 1 := one_mul 1
      · exact ih (fun a ha => hx a (List.mem_cons_of_mem _ ha))
          (fun b hb => hy b (List.mem_cons_of_mem _ hb)) z hz

theorem applyFadeIn_abs {audio r : List ℚ} {fis : ℕ}
    (hb : ∀ x ∈ audio, |x| ≤ 1) (h : applyFadeIn audio fis = some r) :
    ∀ x ∈ r, |x| ≤ 1 := by
  unfold applyFadeIn at h
  split at h
  · simp only [Option.some.injEq] at h
    subst h
    intro x hx
    rw [List.mem_append] at hx
    rcases hx with hx | hx
    · exact abs_le_one_zipWith (fun a ha => hb a (List.take_subset _ _ ha))
        (fun b hbm => abs_le_one_of_mem_01 (mem_linspaceE_01 hbm).1
          (mem_linspaceE_01 hbm).2) x hx
    · exact hb x (List.drop_subset _ _ hx)
  · split at h
    · simp only [Option.some.injEq] at h
      subst h
      exact hb
    · exact Option.noConfusion h

theorem applyFadeOut_abs {audio r : List ℚ} {fos : ℕ}
    (hb : ∀ x ∈ audio, |x| ≤ 1) (h : applyFadeOut audio fos = some r) :
    ∀ x ∈ r, |x| ≤ 1 := by
  unfold applyFadeOut at h
  split at h
  · split at h
    · simp only [Option.some.injEq] at h
      subst h
      exact hb
    · exact Option.noConfusion h
  · split at h
    · simp only [Option.some.injEq] at h
      subst h
      intro x hx
      rw [List.mem_append] at hx
      rcases hx with hx | hx
      · exact hb x (List.take_subset _ _ hx)
      · exact abs_le_one_zipWith (fun a ha => hb a (List.drop_subset _ _ ha))
          (fun b hbm => abs_le_one_of_mem_01 (mem_linspaceE_10 hbm).1
            (mem_linspaceE_10 hbm).2) x hx
    · split at h
      · simp only [Option.some.injEq] at h
        subst h
        exact hb
      · exact Option.noConfusion h

theorem toneWave_abs {sin : ℚ → ℚ} (hsin : ∀ x, |sin x| ≤ 1) {fr : Frequencies}
    {d : ℚ} {samples : ℕ} {audio : List ℚ}
    (h : toneWave sin fr d samples = some audio) : ∀ s ∈ audio, |s| ≤ 1 := by
  cases fr with
  | single f =>
    simp only [toneWave, Option.some.injEq] at h
    subst h
    intro s hs
    rw [List.mem_map] at hs
    obtain ⟨x, _, rfl⟩ := hs
    exact hsin _
  | seq fs =>
    simp only [toneWave] at h
    split at h
    · exact Option.noConfusion h
    · simp only [Option.some.injEq] at h
      subst h
      intro s hs
      unfold multiWave at hs
      rw [List.mem_flatten] at hs
      obtain ⟨l, hl, hsl⟩ := hs
      rw [List.mem_map] at hl
      obtain ⟨p, _, rfl⟩ := hl
      rw [List.mem_map] at hsl
      obtain ⟨x, _, rfl⟩ := hsl
      exact hsin _

theorem fadeAndScale_abs {audio r : List ℚ} {fis fos : ℕ}
    (hb : ∀ x ∈ audio, |x| ≤ 1) (h : fadeAndScale audio fis fos = some r) :
    ∀ s ∈ r, |s| ≤ 7/10 := by
  unfold fadeAndScale at h
  rw [Option.bind_eq_some] at h
  obtain ⟨a2, hin, h⟩ := h
  rw [Option.map_eq_some'] at h
  obtain ⟨a3, hout, rfl⟩ := h
  intro s hs
  rw [List.mem_map] at hs
  obtain ⟨x, hx, rfl⟩ := hs
  have h3 : |x| ≤ 1 := applyFadeOut_abs (applyFadeIn_abs hb hin) hout x hx
  rw [abs_mul, abs_of_pos (by norm_num : (0:ℚ) < 7/10)]
  exact mul_le_of_le_one_left (by norm_num) h3

theorem generate_tone_abs {sin : ℚ → ℚ} {fr : Frequencies} {d fi fo : ℚ}
    {buf : List ℚ} (hsin : ∀ x, |sin x| ≤ 1)
    (h : generate_tone sin fr d fi fo = some buf) : ∀ s ∈ buf, |s| ≤ 7/10 := by
  unfold generate_tone at h
  rw [Option.bind_eq_some] at h
  obtain ⟨audio, hw, h⟩ := h
  exact fadeAndScale_abs (toneWave_abs hsin hw) h

/-! ### Evaluation helpers -/

theorem pyIntNat_eval {q : ℚ} {n : ℕ} (h1 : 0 ≤ q) (h2 : ⌊q⌋ = (n:ℤ)) :
    pyIntNat q = n := by
  rw [pyIntNat, ratTrunc_of_nonneg h1, h2, Int.toNat_natCast]

theorem wrap16_eq_self {z : ℤ} (h1 : -32768 ≤ z) (h2 : z < 32768) : wrap16 z = z := by
  unfold wrap16
  rw [Int.emod_eq_of_lt (by omega) (by omega)]
  omega

theorem ratTrunc_round_diff (x : ℚ) : |ratTrunc x - round x| ≤ 1 := by
  rw [round_eq]
  unfold ratTrunc
  split
  · have h1 : ⌊x⌋ ≤ ⌊x + 1/2⌋ := Int.floor_le_floor (by linarith)
    have h2 : ⌊x + 1/2⌋ ≤ ⌊x⌋ + 1 := by
      rw [← Int.floor_add_one]
      exact Int.floor_le_floor (by linarith)
    rw [abs_le]
    omega
  · have h3 : ⌊x + 1/2⌋ ≤ ⌊x⌋ + 1 := by
      rw [← Int.floor_add_one]
      exact Int.floor_le_floor (by linarith)
    have h4 := Int.floor_le_ceil x
    have h5 := Int.ceil_le_floor_add_one x
    have h6 : ⌊x⌋ ≤ ⌊x + 1/2⌋ := Int.floor_le_floor (by linarith)
    rw [abs_le]
    omega

/-! ### Claim C1 (ContainerWriter quantization) -/

/-- C1 counterexample: the sample 0.7 lies in the expected range, but the
code quantizes it to 22936 (truncation of 22936.9) while
round(0.7 × 32767) = 22937. -/
theorem C1_quantize_counterexample :
    (-(7:ℚ)/10 ≤ 7/10 ∧ (7:ℚ)/10 ≤ 7/10) ∧
      quantizeSample (7/10) ≠ round ((7:ℚ)/10 * 32767) := by
  have h1 : quantizeSample (7/10) = 22936 := by
    rw [quantizeSample, ratTrunc_of_nonneg (by norm_num)]
    rw [show ⌊(7:ℚ)/10 * 32767⌋ = 22936 by norm_num]
    rw [wrap16_eq_self (by norm_num) (by norm_num)]
  have h2 : round ((7:ℚ)/10 * 32767) = 22937 := by
    rw [round_eq]
    norm_num
  refine ⟨⟨by norm_num, le_refl _⟩, ?_⟩
  rw [h1, h2]
  decide

/-- C1 (amended): each sample `s` in the expected range [-0.7, 0.7] is
quantized to the truncation toward zero of `s × 32767` (no 16-bit
wraparound occurs on that range), a value that differs from the
nearest-integer rounding `round(s × 32767)` by at most 1. -/
theorem C1_quantize_truncates (s : ℚ) (h1 : -(7/10) ≤ s) (h2 : s ≤ 7/10) :
    quantizeSample s = ratTrunc (s * 32767) ∧
      |quantizeSample s - round (s * 32767)| ≤ 1 := by
  have hub : s * 32767 ≤ 229369/10 := by nlinarith
  have hlb : -(229369/10 : ℚ) ≤ s * 32767 := by nlinarith
  have ht : -22936 ≤ ratTrunc (s * 32767) ∧ ratTrunc (s * 32767) ≤ 22936 := by
    unfold ratTrunc
    split
    · rename_i hq
      constructor
      · have h0 : (0:ℤ) ≤ ⌊s * 32767⌋ := Int.floor_nonneg.mpr hq
        omega
      · have h3 : ⌊s * 32767⌋ ≤ ⌊(229369/10 : ℚ)⌋ := Int.floor_le_floor hub
        rw [show ⌊(229369/10 : ℚ)⌋ = 22936 by norm_num] at h3
        exact h3
    · rename_i hq
      push_neg at hq
      constructor
      · have h3 : ⌈-(229369/10 : ℚ)⌉ ≤ ⌈s * 32767⌉ := Int.ceil_le_ceil hlb
        have hceil : ⌈-(229369/10 : ℚ)⌉ = -22936 := by
          rw [Int.ceil_neg]
          norm_num
        rw [hceil] at h3
        exact h3
      · have h0 : ⌈s * 32767⌉ ≤ ⌈(0:ℚ)⌉ := Int.ceil_le_ceil hq.le
        rw [Int.ceil_zero] at h0
        omega
  have hq : quantizeSample s = ratTrunc (s * 32767) := by
    rw [quantizeSample]
    exact wrap16_eq_self (by omega) (by omega)
  exact ⟨hq, hq ▸ ratTrunc_round_diff (s * 32767)⟩

/-- C1 witness: the amended statement evaluated at s = 0.7. -/
theorem C1_quantize_truncates_witness :
    quantizeSample (7/10) = ratTrunc ((7:ℚ)/10 * 32767) ∧
      |quantizeSample (7/10) - round ((7:ℚ)/10 * 32767)| ≤ 1 :=
  C1_quantize_truncates (7/10) (by norm_num) (by norm_num)

/-! ### Claim C2 (generate_tone totality) -/

/-- C2 counterexample: a ToneSpec satisfying all stated preconditions with
fade_out = 0 makes `generate_tone` raise (the slice `audio[-0:]` is the
whole buffer while the fade ramp is empty, so the in-place product is a
numpy broadcast error), instead of returning a buffer. -/
theorem C2_fade_counterexample :
    ((0:ℚ) < 880 ∧ (0:ℚ) < 8/100 ∧ (0:ℚ) ≤ 5/1000 ∧ (0:ℚ) ≤ 0 ∧
      (5:ℚ)/1000 + 0 ≤ 8/100) ∧
    generate_tone (fun _ => 0) (.single 880) (8/100) (5/1000) 0 = none := by
  refine ⟨⟨by norm_num, by norm_num, by norm_num, le_refl 0, by norm_num⟩, ?_⟩
  have hsamples : pyIntNat (SAMPLE_RATE * (8/100)) = 3528 :=
    pyIntNat_eval (by norm_num [SAMPLE_RATE]) (by norm_num [SAMPLE_RATE])
  have hfis : pyIntNat (SAMPLE_RATE * (5/1000)) = 220 :=
    pyIntNat_eval (by norm_num [SAMPLE_RATE]) (by norm_num [SAMPLE_RATE])
  have hfos : pyIntNat (SAMPLE_RATE * 0) = 0 :=
    pyIntNat_eval (by norm_num [SAMPLE_RATE]) (by norm_num [SAMPLE_RATE])
  unfold generate_tone
  rw [toneWave_some_single, Option.some_bind, hfis, hfos]
  have hlen : ((linspaceNE 0 (8/100) (pyIntNat (SAMPLE_RATE * (8/100)))).map
      (fun x => (fun _ : ℚ => (0:ℚ)) (2 * np_pi * 880 * x))).length = 3528 := by
    rw [List.length_map, linspaceNE_length, hsamples]
  exact fadeAndScale_none_of_fos_zero (by rw [hlen]; omega) (by rw [hlen]; omega)

/-- C2 (amended): for every ToneSpec satisfying the stated preconditions
(nonempty frequency input, all frequencies > 0, duration > 0,
fade_in ≥ 0, fade_out ≥ 0, fade_in + fade_out ≤ duration) and whose
fade-out converts to at least one sample — or whose buffer is empty —
`generate_tone` raises no error and returns a buffer of the computed
length `int(44100 × duration)`; when the fade-out converts to 0 samples
and the buffer is nonempty, the fade-out step raises a broadcast error. -/
theorem C2_no_error (sin : ℚ → ℚ) (fr : Frequencies) (d fi fo : ℚ)
    (hfr : freqPrecond fr) (hd : 0 < d) (hfi : 0 ≤ fi) (hfo : 0 ≤ fo)
    (hsum : fi + fo ≤ d)
    (hout : 1 ≤ pyIntNat (SAMPLE_RATE * fo) ∨ pyIntNat (SAMPLE_RATE * d) = 0) :
    ∃ buf, generate_tone sin fr d fi fo = some buf ∧
      buf.length = pyIntNat (SAMPLE_RATE * d) :=
  generate_tone_some sin fr d fi fo hfr hd hfi hfo hsum hout

/-- C2 witness: the amended statement at a concrete ToneSpec. -/
theorem C2_no_error_witness :
    ∃ buf, generate_tone (fun _ => 0) (.single 880) (1/10000) 0 (1/44100) = some buf ∧
      buf.length = pyIntNat (SAMPLE_RATE * (1/10000)) :=
  C2_no_error (fun _ => 0) (.single 880) (1/10000) 0 (1/44100)
    (by simp only [freqPrecond]; norm_num) (by norm_num) (le_refl 0) (by norm_num)
    (by norm_num)
    (Or.inl (le_of_eq (pyIntNat_eval (by norm_num [SAMPLE_RATE])
      (by norm_num [SAMPLE_RATE])).symm))

/-! ### Claim C3 (encoder failure handling) -/

/-- C3 counterexample: when the encoder runs and exits nonzero,
`convert_to_mp3` does not return at all — `subprocess.run(..., check=True)`
raises `CalledProcessError`, which the `except FileNotFoundError` clause
does not catch — so the call is an error, not a normal success-like
return. -/
theorem C3_failure_counterexample :
    convert_to_mp3 .failedNonzero (save_wav_state [] noFiles) =
      .error .calledProcessError ∧
    ¬ ∃ r, convert_to_mp3 .failedNonzero (save_wav_state [] noFiles) = .ok r := by
  refine ⟨rfl, ?_⟩
  rintro ⟨r, hr⟩
  exact Except.noConfusion hr

/-- C3 (amended): when the encoder is present but exits with a nonzero
status, `convert_to_mp3` raises (the `CalledProcessError` from
`check=True` propagates out of the function, aborting the run); it does
not return normally, so the failure is distinguished from success by the
escaping exception rather than by a per-file report. -/
theorem C3_failure_raises (st : SoundFiles) :
    convert_to_mp3 .failedNonzero st = .error .calledProcessError ∧
    ∀ r, convert_to_mp3 .failedNonzero st ≠ .ok r :=
  ⟨rfl, fun _ hr => Except.noConfusion hr⟩

/-! ### Claim C5 (encoder-not-found fallback) -/

/-- C5: when the encoder executable is not found, `convert_to_mp3` does
not delete the uncompressed file: the WAV payload written by `save_wav`
moves intact to the `.mp3` path (a rename), the `.wav` path becomes empty,
and the function returns False (usedCompression = false). -/
theorem C5_notfound_renames (st : SoundFiles) (buf : List ℚ) :
    convert_to_mp3 .notFound (save_wav_state buf st) =
      .ok (false, ⟨none, some (Payload.wav (save_wav_data buf))⟩) := rfl

/-! ### Claim C6 (buffer length) -/

/-- C6: for every ToneSpec with duration > 0, any buffer returned by
`generate_tone` has length within ±1 of round(duration × 44100), in both
the single- and the multi-frequency case. -/
theorem C6_length_within_one (sin : ℚ → ℚ) (fr : Frequencies) (d fi fo : ℚ)
    (buf : List ℚ) (hd : 0 < d) (h : generate_tone sin fr d fi fo = some buf) :
    |(buf.length : ℤ) - round (d * (44100:ℚ))| ≤ 1 := by
  rw [generate_tone_length h]
  have hx : SAMPLE_RATE * d = d * (44100:ℚ) := by
    unfold SAMPLE_RATE
    ring
  have hnn : (0:ℚ) ≤ d * 44100 := mul_nonneg hd.le (by norm_num)
  rw [pyIntNat, ratTrunc_of_nonneg (by rw [hx]; exact hnn), hx]
  rw [Int.toNat_of_nonneg (Int.floor_nonneg.mpr hnn)]
  rw [round_eq]
  have h1 : ⌊d * (44100:ℚ)⌋ ≤ ⌊d * (44100:ℚ) + 1/2⌋ :=
    Int.floor_le_floor (by linarith)
  have h2 : ⌊d * (44100:ℚ) + 1/2⌋ ≤ ⌊d * (44100:ℚ)⌋ + 1 := by
    rw [← Int.floor_add_one]
    exact Int.floor_le_floor (by linarith)
  rw [abs_le]
  omega

/-! ### Claim C7 (segment partition) -/

/-- C7: for a multi-frequency tone with L ≥ 1 frequencies, the segment
boundaries used by `generate_tone` give L segments, the first L−1 of
length ⌊total_samples/L⌋, the last of length
total_samples − (L−1)·⌊total_samples/L⌋, and their half-open ranges
concatenate exactly to [0, total_samples) — full coverage with no gap and
no overlap. -/
theorem C7_segment_partition (samples L : ℕ) (hL : 1 ≤ L) :
    (segmentBounds samples L).length = L ∧
    ((segmentBounds samples L).take (L - 1)).map (fun p => p.2 - p.1) =
      List.replicate (L - 1) (samples / L) ∧
    ((segmentBounds samples L).getLast?).map (fun p => p.2 - p.1) =
      some (samples - (L - 1) * (samples / L)) ∧
    ((segmentBounds samples L).map (fun p => List.range' p.1 (p.2 - p.1))).flatten =
      List.range samples := by
  refine ⟨segmentBounds_length _ _, ?_, ?_, segmentBounds_flatten_range samples hL⟩
  · rw [segmentBounds_split samples hL]
    have hlen : ((List.range (L - 1)).map
        (fun i => (i * (samples / L), i * (samples / L) + samples / L))).length =
        L - 1 := by
      rw [List.length_map, List.length_range]
    rw [List.take_left' hlen]
    rw [List.map_map]
    refine List.eq_replicate_iff.mpr ⟨by rw [List.length_map, List.length_range], ?_⟩
    intro b hb
    rw [List.mem_map] at hb
    obtain ⟨i, _, rfl⟩ := hb
    simp
  · rw [segmentBounds_split samples hL, List.getLast?_concat]
    rfl

/-- C7 witness: the partition property at samples = 7, L = 3. -/
theorem C7_segment_partition_witness :
    (segmentBounds 7 3).length = 3 ∧
    ((segmentBounds 7 3).take (3 - 1)).map (fun p => p.2 - p.1) =
      List.replicate (3 - 1) (7 / 3) ∧
    ((segmentBounds 7 3).getLast?).map (fun p => p.2 - p.1) =
      some (7 - (3 - 1) * (7 / 3)) ∧
    ((segmentBounds 7 3).map (fun p => List.range' p.1 (p.2 - p.1))).flatten =
      List.range 7 :=
  C7_segment_partition 7 3 (by norm_num)

/-! ### Claim C8 (exactly one artifact per sound) -/

/-- C8: after `save_wav` and a non-raising `convert_to_mp3` (encoder
success or encoder-not-found fallback — a raising run is a fatal error and
excluded), the `.wav` path is empty and the `.mp3` path holds exactly one
of the compressed payload or the renamed uncompressed payload, never both
and never neither; compression is reported true exactly for the former. -/
theorem C8_exactly_one_file (buf : List ℚ) (st0 : SoundFiles)
    (outcome : EncoderOutcome) (used : Bool) (st' : SoundFiles)
    (h : convert_to_mp3 outcome (save_wav_state buf st0) = .ok (used, st')) :
    st'.wavFile = none ∧
    Xor' (st'.mp3File = some Payload.mp3)
      (st'.mp3File = some (Payload.wav (save_wav_data buf))) ∧
    (used = true ↔ st'.mp3File = some Payload.mp3) := by
  cases outcome with
  | success =>
    simp only [convert_to_mp3, Except.ok.injEq, Prod.mk.injEq] at h
    obtain ⟨h1, h2⟩ := h
    subst h1
    subst h2
    exact ⟨rfl, Or.inl ⟨rfl, by simp⟩, by simp⟩
  | notFound =>
    simp only [convert_to_mp3, Except.ok.injEq, Prod.mk.injEq] at h
    obtain ⟨h1, h2⟩ := h
    subst h1
    subst h2
    refine ⟨rfl, Or.inr ⟨rfl, by simp [save_wav_state]⟩, by simp [save_wav_state]⟩
  | failedNonzero => exact Except.noConfusion h

/-- C8 witness: the invariant at a successful transcode of an empty
buffer. -/
theorem C8_exactly_one_file_witness :
    (⟨none, some Payload.mp3⟩ : SoundFiles).wavFile = none ∧
    Xor' ((⟨none, some Payload.mp3⟩ : SoundFiles).mp3File = some Payload.mp3)
      ((⟨none, some Payload.mp3⟩ : SoundFiles).mp3File =
        some (Payload.wav (save_wav_data []))) ∧
    (true = true ↔ (⟨none, some Payload.mp3⟩ : SoundFiles).mp3File =
      some Payload.mp3) :=
  C8_exactly_one_file [] noFiles .success true ⟨none, some Payload.mp3⟩ rfl

/-! ### Claim C9 (amplitude bound) -/

/-- C9: every sample of any buffer returned by `generate_tone` has
absolute value at most 0.7: the sine values and the fade factors lie in
[−1, 1] and [0, 1], and the whole buffer is scaled by 0.7 last. -/
theorem C9_amplitude_bound (sin : ℚ → ℚ) (hsin : ∀ x, |sin x| ≤ 1)
    (fr : Frequencies) (d fi fo : ℚ) (buf : List ℚ)
    (h : generate_tone sin fr d fi fo = some buf) :
    ∀ s ∈ buf, |s| ≤ 7/10 :=
  generate_tone_abs hsin h

/-- Concrete evaluation of `generate_tone` on a four-sample tone with the
constant-one sine stand-in. -/
theorem generate_tone_eval_small :
    generate_tone (fun _ => (1:ℚ)) (.single 880) (1/10000) 0 (1/44100) =
      some [7/10, 7/10, 7/10, 7/10] := by
  have h4 : pyIntNat (SAMPLE_RATE * (1/10000)) = 4 :=
    pyIntNat_eval (by norm_num [SAMPLE_RATE]) (by norm_num [SAMPLE_RATE])
  have h0 : pyIntNat (SAMPLE_RATE * 0) = 0 :=
    pyIntNat_eval (by norm_num [SAMPLE_RATE]) (by norm_num [SAMPLE_RATE])
  have h1 : pyIntNat (SAMPLE_RATE * (1/44100)) = 1 :=
    pyIntNat_eval (by norm_num [SAMPLE_RATE]) (by norm_num [SAMPLE_RATE])
  unfold generate_tone
  rw [toneWave_some_single, Option.some_bind, h4, h0, h1]
  have haudio : (linspaceNE 0 (1/10000) 4).map
      (fun x => (fun _ : ℚ => (1:ℚ)) (2 * np_pi * 880 * x)) = [1, 1, 1, 1] := by
    rw [List.map_const', linspaceNE_length]
    rfl
  rw [haudio]
  have hin : applyFadeIn [1, 1, 1, 1] 0 = some [1, 1, 1, 1] := by
    unfold applyFadeIn
    rw [if_pos (by norm_num)]
    rfl
  have hout : applyFadeOut [1, 1, 1, 1] 1 = some [1, 1, 1, 1 * 1] := by
    unfold applyFadeOut
    rw [if_neg (by norm_num), if_pos (by norm_num)]
    rfl
  unfold fadeAndScale
  rw [hin, Option.some_bind, hout, Option.map_some']
  norm_num

/-- C6 witness: the length bound at a concrete four-sample ToneSpec. -/
theorem C6_length_within_one_witness :
    |(([(7:ℚ)/10, 7/10, 7/10, 7/10] : List ℚ).length : ℤ) -
      round ((1/10000 : ℚ) * (44100:ℚ))| ≤ 1 :=
  C6_length_within_one (fun _ => 1) (.single 880) (1/10000) 0 (1/44100) _
    (by norm_num) generate_tone_eval_small

/-- C9 witness: the amplitude bound at a sample of a concrete buffer. -/
theorem C9_amplitude_bound_witness : |(7:ℚ)/10| ≤ 7/10 :=
  C9_amplitude_bound (fun _ => 1) (fun _ => by norm_num) (.single 880)
    (1/10000) 0 (1/44100) _ generate_tone_eval_small (7/10) (by simp)

/-! ### String lemmas for the path round-trip (claim C10) -/

/-- No nonempty suffix of `s` continued by `pat` itself starts with `pat`:
the condition under which a left-to-right replacement scan over
`s ++ pat` only fires on the final `pat`. -/
def noRestart (pat : PyStr) : PyStr → Bool
  | [] => true
  | c :: rest => (!(isPrefixList pat ((c :: rest) ++ pat))) && noRestart pat rest

theorem isPrefixList_self : ∀ p : PyStr, isPrefixList p p = true
  | [] => rfl
  | c :: p => by
    simp only [isPrefixList, beq_self_eq_true, Bool.true_and]
    exact isPrefixList_self p

theorem isPrefixList_append_of_le {pat : PyStr} :
    ∀ {t : PyStr}, pat.length ≤ t.length → ∀ u : PyStr,
      isPrefixList pat (t ++ u) = isPrefixList pat t := by
  induction pat with
  | nil => intro t _ u; rfl
  | cons a pat ih =>
    intro t h u
    cases t with
    | nil => simp at h
    | cons b t =>
      show (a == b && isPrefixList pat (t ++ u)) = (a == b && isPrefixList pat t)
      rw [ih (by simpa using h) u]

theorem replaceAll_append_pat {pat rep : PyStr} (hp : pat ≠ []) :
    ∀ stem : PyStr, noRestart pat stem = true →
      replaceAll pat rep (stem ++ pat) = stem ++ rep := by
  intro stem
  induction stem with
  | nil =>
    intro _
    rw [List.nil_append]
    cases pat with
    | nil => exact absurd rfl hp
    | cons c cs =>
      rw [replaceAll]
      rw [if_pos ⟨hp, isPrefixList_self (c :: cs)⟩]
      simp only [List.length_cons, Nat.add_sub_cancel, List.drop_length]
      rw [replaceAll]
      simp
  | cons c stem ih =>
    intro hnr
    simp only [noRestart, Bool.and_eq_true, Bool.not_eq_true'] at hnr
    obtain ⟨h1, h2⟩ := hnr
    rw [List.cons_append] at h1 ⊢
    rw [replaceAll]
    rw [if_neg (fun hcond => by rw [h1] at hcond; exact Bool.noConfusion hcond.2)]
    rw [ih h2]
    rfl

theorem containsSub_cons_false {pat : PyStr} {c : Char} {rest : PyStr}
    (h : containsSub pat (c :: rest) = false) :
    isPrefixList pat (c :: rest) = false ∧ containsSub pat rest = false := by
  have heq : containsSub pat (c :: rest) =
      (isPrefixList pat (c :: rest) || containsSub pat rest) := rfl
  rw [heq, Bool.or_eq_false_iff] at h
  exact h

theorem noRestart_of_not_contains (pat : PyStr) (hp4 : pat.length = 4)
    (hstr : ∀ t : PyStr, t ≠ [] → t.length < 4 →
      isPrefixList pat (t ++ pat) = false) :
    ∀ {s : PyStr}, containsSub pat s = false → noRestart pat s = true := by
  intro s
  induction s with
  | nil => intro _; rfl
  | cons c rest ih =>
    intro hc
    obtain ⟨h1, h2⟩ := containsSub_cons_false hc
    simp only [noRestart, Bool.and_eq_true, Bool.not_eq_true']
    refine ⟨?_, ih h2⟩
    by_cases hlen : (c :: rest).length < 4
    · exact hstr _ (by simp) hlen
    · rw [isPrefixList_append_of_le (by omega) pat]
      exact h1

theorem no_straddle_mp3 : ∀ t : PyStr, t ≠ [] → t.length < 4 →
    isPrefixList mp3ext (t ++ mp3ext) = false
  | [], h, _ => absurd rfl h
  | [a], _, _ => by
    show (('.' == a) && isPrefixList ['m', 'p', '3'] mp3ext) = false
    rw [show isPrefixList ['m', 'p', '3'] mp3ext = false from rfl, Bool.and_false]
  | [a, b], _, _ => by
    show (('.' == a) && (('m' == b) && isPrefixList ['p', '3'] mp3ext)) = false
    rw [show isPrefixList ['p', '3'] mp3ext = false from rfl, Bool.and_false,
      Bool.and_false]
  | [a, b, c], _, _ => by
    show (('.' == a) && (('m' == b) && (('p' == c) &&
      isPrefixList ['3'] mp3ext))) = false
    rw [show isPrefixList ['3'] mp3ext = false from rfl, Bool.and_false,
      Bool.and_false, Bool.and_false]
  | _ :: _ :: _ :: _ :: _, _, h => by
    simp only [List.length_cons] at h
    omega

theorem no_straddle_wav : ∀ t : PyStr, t ≠ [] → t.length < 4 →
    isPrefixList wavext (t ++ wavext) = false
  | [], h, _ => absurd rfl h
  | [a], _, _ => by
    show (('.' == a) && isPrefixList ['w', 'a', 'v'] wavext) = false
    rw [show isPrefixList ['w', 'a', 'v'] wavext = false from rfl, Bool.and_false]
  | [a, b], _, _ => by
    show (('.' == a) && (('w' == b) && isPrefixList ['a', 'v'] wavext)) = false
    rw [show isPrefixList ['a', 'v'] wavext = false from rfl, Bool.and_false,
      Bool.and_false]
  | [a, b, c], _, _ => by
    show (('.' == a) && (('w' == b) && (('a' == c) &&
      isPrefixList ['v'] wavext))) = false
    rw [show isPrefixList ['v'] wavext = false from rfl, Bool.and_false,
      Bool.and_false, Bool.and_false]
  | _ :: _ :: _ :: _ :: _, _, h => by
    simp only [List.length_cons] at h
    omega

/-- Whether a string contains no dot at all (true of `OUTPUT_DIR` and the
path separator). -/
def noDot (s : PyStr) : Bool := s.all (fun c => !(c == '.'))

theorem noRestart_append_of_noDot {pat p' : PyStr} (hpat : pat = '.' :: p') :
    ∀ xs ys : PyStr, noDot xs = true → noRestart pat ys = true →
      noRestart pat (xs ++ ys) = true := by
  intro xs
  induction xs with
  | nil =>
    intro ys _ h
    rw [List.nil_append]
    exact h
  | cons c xs ih =>
    intro ys hnd hys
    simp only [noDot, List.all_cons, Bool.and_eq_true, Bool.not_eq_true'] at hnd
    obtain ⟨hc, hxs⟩ := hnd
    rw [List.cons_append]
    simp only [noRestart, Bool.and_eq_true, Bool.not_eq_true']
    refine ⟨?_, ih ys hxs hys⟩
    have hcc : ('.' == c) = false :=
      beq_eq_false_iff_ne.mpr (fun he => (beq_eq_false_iff_ne.mp hc) he.symm)
    rw [hpat, List.cons_append]
    show (('.' == c) && isPrefixList p' ((xs ++ ys) ++ ('.' :: p'))) = false
    rw [hcc, Bool.false_and]

theorem replace_mp3_to_wav {stem : PyStr} (h : containsSub mp3ext stem = false) :
    replaceAll mp3ext wavext (stem ++ mp3ext) = stem ++ wavext :=
  replaceAll_append_pat (by simp [mp3ext]) stem
    (noRestart_of_not_contains mp3ext rfl no_straddle_mp3 h)

theorem replace_wav_to_mp3_full {stem : PyStr} (h : containsSub wavext stem = false) :
    replaceAll wavext mp3ext (((OUTPUT_DIR ++ ['\\']) ++ stem) ++ wavext) =
      ((OUTPUT_DIR ++ ['\\']) ++ stem) ++ mp3ext :=
  replaceAll_append_pat (by simp [wavext]) _
    (noRestart_append_of_noDot rfl (OUTPUT_DIR ++ ['\\']) stem (by rfl)
      (noRestart_of_not_contains wavext rfl no_straddle_wav h))

/-! ### Claim C10 (extension rewrite round-trip) -/

/-- C10: for a filename of the form `stem ++ ".mp3"` whose stem contains
no `.mp3` and no `.wav` occurrence (the claim's "only dot-extension is the
single trailing .mp3"), the path `save_wav` writes to is the joined path
with a `.wav` ending, and `convert_to_mp3`'s path computation maps it back
to exactly `os.path.join(OUTPUT_DIR, filename)`: the two extension
rewrites round-trip. -/
theorem C10_extension_roundtrip (stem : PyStr)
    (h1 : containsSub mp3ext stem = false) (h2 : containsSub wavext stem = false) :
    save_wav_path (stem ++ mp3ext) = osPathJoin OUTPUT_DIR (stem ++ wavext) ∧
    convert_mp3_path (save_wav_path (stem ++ mp3ext)) =
      osPathJoin OUTPUT_DIR (stem ++ mp3ext) := by
  have hs : save_wav_path (stem ++ mp3ext) = osPathJoin OUTPUT_DIR (stem ++ wavext) := by
    unfold save_wav_path
    rw [replace_mp3_to_wav h1]
  refine ⟨hs, ?_⟩
  rw [hs]
  unfold convert_mp3_path osPathJoin
  have hgoal := replace_wav_to_mp3_full h2
  simpa [List.append_assoc] using hgoal

/-- C10 witness: the round-trip at the concrete filename `correct.mp3`. -/
theorem C10_extension_roundtrip_witness :
    save_wav_path ("correct".toList ++ mp3ext) =
      osPathJoin OUTPUT_DIR ("correct".toList ++ wavext) ∧
    convert_mp3_path (save_wav_path ("correct".toList ++ mp3ext)) =
      osPathJoin OUTPUT_DIR ("correct".toList ++ mp3ext) :=
  C10_extension_roundtrip "correct".toList (by rfl) (by rfl)

/-! ### Fallback byte sizes (context for C4) -/

theorem fallbackSize_eq {sin : ℚ → ℚ} {fr : Frequencies} {d fi fo : ℚ}
    {buf : List ℚ} (h : generate_tone sin fr d fi fo = some buf) :
    fallbackSize sin fr d fi fo = some (44 + 2 * buf.length) := by
  unfold fallbackSize
  rw [h]
  show some (44 + 2 * (save_wav_data buf).length) = some (44 + 2 * buf.length)
  rw [save_wav_data, List.length_map]

/-- Under exact rational arithmetic — which is how this embedding
idealizes the script's floating point — the no-encoder fallback artifact
of each of the three sounds has byte size `44 + 2·int(44100·duration)`,
with sample counts 15435, 13230 and 3528, matching
`44 + 2·round(duration × 44100)` for all three.  (In IEEE-754 binary64
arithmetic the first count differs: see the theorems below.) -/
theorem fallbackSize_exact (sin : ℚ → ℚ) :
    fallbackSize sin correctFreqs (35/100) (1/100) (1/10) = some (44 + 2 * 15435) ∧
    fallbackSize sin incorrectFreqs (3/10) (1/100) (1/10) = some (44 + 2 * 13230) ∧
    fallbackSize sin clickFreqs (8/100) (5/1000) (3/100) = some (44 + 2 * 3528) := by
  refine ⟨?_, ?_, ?_⟩
  · have hfos : pyIntNat (SAMPLE_RATE * (1/10)) = 4410 :=
      pyIntNat_eval (by norm_num [SAMPLE_RATE]) (by norm_num [SAMPLE_RATE])
    have hsamp : pyIntNat (SAMPLE_RATE * (35/100)) = 15435 :=
      pyIntNat_eval (by norm_num [SAMPLE_RATE]) (by norm_num [SAMPLE_RATE])
    obtain ⟨buf, hbuf, hlen⟩ := generate_tone_some sin correctFreqs
      (35/100) (1/100) (1/10)
      ⟨by simp [correctFreqs], by intro f hf; fin_cases hf <;> norm_num⟩
      (by norm_num) (by norm_num) (by norm_num) (by norm_num)
      (Or.inl (by rw [hfos]; norm_num))
    rw [fallbackSize_eq hbuf, hlen, hsamp]
  · have hfos : pyIntNat (SAMPLE_RATE * (1/10)) = 4410 :=
      pyIntNat_eval (by norm_num [SAMPLE_RATE]) (by norm_num [SAMPLE_RATE])
    have hsamp : pyIntNat (SAMPLE_RATE * (3/10)) = 13230 :=
      pyIntNat_eval (by norm_num [SAMPLE_RATE]) (by norm_num [SAMPLE_RATE])
    obtain ⟨buf, hbuf, hlen⟩ := generate_tone_some sin incorrectFreqs
      (3/10) (1/100) (1/10)
      ⟨by simp [incorrectFreqs], by intro f hf; fin_cases hf <;> norm_num⟩
      (by norm_num) (by norm_num) (by norm_num) (by norm_num)
      (Or.inl (by rw [hfos]; norm_num))
    rw [fallbackSize_eq hbuf, hlen, hsamp]
  · have hfos : pyIntNat (SAMPLE_RATE * (3/100)) = 1323 :=
      pyIntNat_eval (by norm_num [SAMPLE_RATE]) (by norm_num [SAMPLE_RATE])
    have hsamp : pyIntNat (SAMPLE_RATE * (8/100)) = 3528 :=
      pyIntNat_eval (by norm_num [SAMPLE_RATE]) (by norm_num [SAMPLE_RATE])
    obtain ⟨buf, hbuf, hlen⟩ := generate_tone_some sin clickFreqs
      (8/100) (5/1000) (3/100)
      (by simp [clickFreqs, freqPrecond])
      (by norm_num) (by norm_num) (by norm_num) (by norm_num)
      (Or.inl (by rw [hfos]; norm_num))
    rw [fallbackSize_eq hbuf, hlen, hsamp]

/-! ### Floating-point sensitivity of the `correct` sample count

The script computes `int(SAMPLE_RATE * duration)` in IEEE-754 binary64.
The binary64 value nearest 0.35 is 6305039478318694·2⁻⁵⁴ (within half of
the local ulp 2⁻⁵⁴, first theorem).  Its exact product with 44100 lies
more than half of the local ulp 2⁻³⁹ below 15435 but within half an ulp
of 15435 − 2⁻³⁹ (second theorem), so the rounded double product is
15435 − 2⁻³⁹, which `int()` truncates to 15434 — one below the exact
15435, making the `correct` fallback file 30912 bytes rather than the
30914 of the exact-arithmetic formula. -/

theorem double035_within_half_ulp :
    |(6305039478318694 : ℚ) / 2^54 - 35/100| ≤ 1/2^55 := by
  rw [abs_le]
  constructor <;> norm_num

theorem double_product_truncates_to_15434 :
    |(6305039478318694 : ℚ) / 2^54 * 44100 - (15435 - 1/2^39)| < 1/2^40 ∧
    |(6305039478318694 : ℚ) / 2^54 * 44100 - 15435| > 1/2^40 ∧
    ratTrunc ((15435 : ℚ) - 1/2^39) = 15434 := by
  refine ⟨?_, ?_, ?_⟩
  · rw [abs_lt]
    constructor <;> norm_num
  · rw [abs_sub_comm, abs_of_pos (by norm_num)]
    norm_num
  · rw [ratTrunc_of_nonneg (by norm_num)]
    norm_num

/-! ### Binary64 evaluation of the sample count (claim C4)

`SAMPLE_RATE * duration` is evaluated by the script in IEEE-754 binary64:
the decimal literal `duration` is first parsed to the nearest binary64
value, then multiplied by 44100 (itself exactly representable) with the
product rounded to binary64, and `int()` truncates the result.  A
binary64 value in the binade [2ᵉ, 2ᵉ⁺¹) is an integer multiple of the
unit in the last place 2ᵉ⁻⁵²; rounding to binary64 is rounding to that
grid, ties to even.  The grid spacing is passed explicitly below and each
use certifies the binade membership of the value being rounded and of the
rounded result. -/

/-- Round a scaled value to the nearest integer, ties to even (the
IEEE-754 default rounding attitude). -/
def roundHalfEven (r : ℚ) : ℤ :=
  if r - ⌊r⌋ < 1/2 then ⌊r⌋
  else if 1/2 < r - ⌊r⌋ then ⌊r⌋ + 1
  else if ⌊r⌋ % 2 = 0 then ⌊r⌋ else ⌊r⌋ + 1

/-- Rounding of `q` to the grid of integer multiples of `ulp`, ties to
even: the IEEE-754 binary64 rounding of `q` when `ulp` is the unit in the
last place of `q`'s binade. -/
def fl64At (ulp q : ℚ) : ℚ := (roundHalfEven (q / ulp) : ℚ) * ulp

/-- `int(SAMPLE_RATE * duration)` as the script actually evaluates it:
the literal `duration` parsed to binary64 on the grid `ulpLit`, the
product with `SAMPLE_RATE` rounded to binary64 on the grid `ulpProd`,
and `int()` truncating toward zero. -/
def samplesBinary64 (ulpLit ulpProd duration : ℚ) : ℤ :=
  ratTrunc (fl64At ulpProd (fl64At ulpLit duration * SAMPLE_RATE))

/-- Byte size of the no-encoder fallback file with the sample count
evaluated in binary64: the 44-byte RIFF/WAVE header plus 2 bytes per
sample (`save_wav` writes one 16-bit frame per buffer sample, and the
buffer length equals the sample count whenever synthesis succeeds —
`generate_tone_length`, `fallbackSize_eq`). -/
def fallbackSizeBinary64 (ulpLit ulpProd duration : ℚ) : ℕ :=
  44 + 2 * (samplesBinary64 ulpLit ulpProd duration).toNat

theorem fl64At_035 : fl64At (1/2^54) (35/100) = 6305039478318694 / 2^54 := by
  unfold fl64At roundHalfEven
  norm_num

theorem fl64At_035_times_44100 :
    fl64At (1/2^39) ((6305039478318694 : ℚ) / 2^54 * SAMPLE_RATE) =
      15435 - 1/2^39 := by
  unfold fl64At roundHalfEven SAMPLE_RATE
  norm_num

theorem samplesBinary64_correct :
    samplesBinary64 (1/2^54) (1/2^39) (35/100) = 15434 := by
  unfold samplesBinary64
  rw [fl64At_035, fl64At_035_times_44100]
  rw [ratTrunc_of_nonneg (by norm_num)]
  norm_num

theorem fl64At_03 : fl64At (1/2^54) (3/10) = 5404319552844595 / 2^54 := by
  unfold fl64At roundHalfEven
  norm_num

theorem fl64At_03_times_44100 :
    fl64At (1/2^39) ((5404319552844595 : ℚ) / 2^54 * SAMPLE_RATE) = 13230 := by
  unfold fl64At roundHalfEven SAMPLE_RATE
  norm_num

theorem samplesBinary64_incorrect :
    samplesBinary64 (1/2^54) (1/2^39) (3/10) = 13230 := by
  unfold samplesBinary64
  rw [fl64At_03, fl64At_03_times_44100]
  rw [ratTrunc_of_nonneg (by norm_num)]
  norm_num

theorem fl64At_008 : fl64At (1/2^56) (8/100) = 5764607523034235 / 2^56 := by
  unfold fl64At roundHalfEven
  norm_num

theorem fl64At_008_times_44100 :
    fl64At (1/2^41) ((5764607523034235 : ℚ) / 2^56 * SAMPLE_RATE) = 3528 := by
  unfold fl64At roundHalfEven SAMPLE_RATE
  norm_num

theorem samplesBinary64_click :
    samplesBinary64 (1/2^56) (1/2^41) (8/100) = 3528 := by
  unfold samplesBinary64
  rw [fl64At_008, fl64At_008_times_44100]
  rw [ratTrunc_of_nonneg (by norm_num)]
  norm_num

/-- The grid parameters used for the `incorrect` sound are the right
ulps: 0.3 and its binary64 rounding lie in the binade [1/4, 1/2) (ulp
2⁻⁵⁴) and the product and its rounding lie in [2¹³, 2¹⁴) (ulp 2⁻³⁹). -/
theorem binades_incorrect :
    ((1:ℚ)/4 ≤ 3/10 ∧ (3:ℚ)/10 < 1/2) ∧
    ((1:ℚ)/4 ≤ fl64At (1/2^54) (3/10) ∧ fl64At (1/2^54) (3/10) < 1/2) ∧
    ((2:ℚ)^13 ≤ fl64At (1/2^54) (3/10) * SAMPLE_RATE ∧
      fl64At (1/2^54) (3/10) * SAMPLE_RATE < 2^14) ∧
    ((2:ℚ)^13 ≤ fl64At (1/2^39) (fl64At (1/2^54) (3/10) * SAMPLE_RATE) ∧
      fl64At (1/2^39) (fl64At (1/2^54) (3/10) * SAMPLE_RATE) < 2^14) := by
  rw [fl64At_03, fl64At_03_times_44100]
  refine ⟨⟨by norm_num, by norm_num⟩, ⟨by norm_num, by norm_num⟩,
    ⟨?_, ?_⟩, ⟨by norm_num, by norm_num⟩⟩ <;> norm_num [SAMPLE_RATE]

/-- The grid parameters used for the `click` sound are the right ulps:
0.08 and its binary64 rounding lie in the binade [2⁻⁴, 2⁻³) (ulp 2⁻⁵⁶)
and the product and its rounding lie in [2¹¹, 2¹²) (ulp 2⁻⁴¹). -/
theorem binades_click :
    ((2:ℚ)^4 * (8/100) ≥ 1 ∧ (2:ℚ)^3 * (8/100) < 1) ∧
    ((1:ℚ)/2^4 ≤ fl64At (1/2^56) (8/100) ∧ fl64At (1/2^56) (8/100) < 1/2^3) ∧
    ((2:ℚ)^11 ≤ fl64At (1/2^56) (8/100) * SAMPLE_RATE ∧
      fl64At (1/2^56) (8/100) * SAMPLE_RATE < 2^12) ∧
    ((2:ℚ)^11 ≤ fl64At (1/2^41) (fl64At (1/2^56) (8/100) * SAMPLE_RATE) ∧
      fl64At (1/2^41) (fl64At (1/2^56) (8/100) * SAMPLE_RATE) < 2^12) := by
  rw [fl64At_008, fl64At_008_times_44100]
  refine ⟨⟨by norm_num, by norm_num⟩, ⟨by norm_num, by norm_num⟩,
    ⟨?_, ?_⟩, ⟨by norm_num, by norm_num⟩⟩ <;> norm_num [SAMPLE_RATE]

/-! ### Claim C4 (fallback byte sizes) -/

/-- C4 counterexample: for the `correct` sound (duration 0.35), with the
binades of 0.35, of its binary64 rounding, of the product with 44100 and
of the rounded product all certified (so the grid parameters 2⁻⁵⁴ and
2⁻³⁹ are the right ulps), the fallback file's byte size under binary64
evaluation is 30912 — not the claimed 44 + 2·round(0.35 × 44100) =
30914. -/
theorem C4_size_counterexample :
    (((1:ℚ)/4 ≤ 35/100 ∧ (35:ℚ)/100 < 1/2) ∧
      ((1:ℚ)/4 ≤ fl64At (1/2^54) (35/100) ∧ fl64At (1/2^54) (35/100) < 1/2) ∧
      ((2:ℚ)^13 ≤ fl64At (1/2^54) (35/100) * SAMPLE_RATE ∧
        fl64At (1/2^54) (35/100) * SAMPLE_RATE < 2^14) ∧
      ((2:ℚ)^13 ≤ fl64At (1/2^39) (fl64At (1/2^54) (35/100) * SAMPLE_RATE) ∧
        fl64At (1/2^39) (fl64At (1/2^54) (35/100) * SAMPLE_RATE) < 2^14)) ∧
    fallbackSizeBinary64 (1/2^54) (1/2^39) (35/100) = 30912 ∧
    44 + 2 * (round ((35:ℚ)/100 * 44100)).toNat = 30914 ∧
    fallbackSizeBinary64 (1/2^54) (1/2^39) (35/100) ≠
      44 + 2 * (round ((35:ℚ)/100 * 44100)).toNat := by
  have hb : ((1:ℚ)/4 ≤ 35/100 ∧ (35:ℚ)/100 < 1/2) ∧
      ((1:ℚ)/4 ≤ fl64At (1/2^54) (35/100) ∧ fl64At (1/2^54) (35/100) < 1/2) ∧
      ((2:ℚ)^13 ≤ fl64At (1/2^54) (35/100) * SAMPLE_RATE ∧
        fl64At (1/2^54) (35/100) * SAMPLE_RATE < 2^14) ∧
      ((2:ℚ)^13 ≤ fl64At (1/2^39) (fl64At (1/2^54) (35/100) * SAMPLE_RATE) ∧
        fl64At (1/2^39) (fl64At (1/2^54) (35/100) * SAMPLE_RATE) < 2^14) := by
    rw [fl64At_035, fl64At_035_times_44100]
    refine ⟨⟨by norm_num, by norm_num⟩, ⟨by norm_num, by norm_num⟩,
      ⟨?_, ?_⟩, ⟨by norm_num, by norm_num⟩⟩ <;> norm_num [SAMPLE_RATE]
  have hsize : fallbackSizeBinary64 (1/2^54) (1/2^39) (35/100) = 30912 := by
    unfold fallbackSizeBinary64
    rw [samplesBinary64_correct]
    rfl
  have hclaim : 44 + 2 * (round ((35:ℚ)/100 * 44100)).toNat = 30914 := by
    rw [show round ((35:ℚ)/100 * 44100) = 15435 by rw [round_eq]; norm_num]
    rfl
  exact ⟨hb, hsize, hclaim, by rw [hsize, hclaim]; omega⟩

/-- C4 (amended): with the sample count `int(SAMPLE_RATE * duration)`
evaluated in binary64 as the script does, the no-encoder fallback files
have byte sizes 30912, 26504 and 7100; the incorrect and click sizes
equal 44 + 2·round(duration × 44100), but the correct size is two bytes
below the formula's 30914 — the binary64 product 44100 × 0.35 rounds to
15435 − 2⁻³⁹ and `int()` truncates it to 15434 samples instead of
round(0.35 × 44100) = 15435. -/
theorem C4_fallback_sizes_binary64 :
    fallbackSizeBinary64 (1/2^54) (1/2^39) (35/100) = 30912 ∧
    fallbackSizeBinary64 (1/2^54) (1/2^39) (3/10) = 26504 ∧
    fallbackSizeBinary64 (1/2^56) (1/2^41) (8/100) = 7100 ∧
    44 + 2 * (round ((35:ℚ)/100 * 44100)).toNat = 30914 ∧
    44 + 2 * (round ((3:ℚ)/10 * 44100)).toNat = 26504 ∧
    44 + 2 * (round ((8:ℚ)/100 * 44100)).toNat = 7100 := by
  refine ⟨?_, ?_, ?_, ?_, ?_, ?_⟩
  · unfold fallbackSizeBinary64
    rw [samplesBinary64_correct]
    rfl
  · unfold fallbackSizeBinary64
    rw [samplesBinary64_incorrect]
    rfl
  · unfold fallbackSizeBinary64
    rw [samplesBinary64_click]
    rfl
  · rw [show round ((35:ℚ)/100 * 44100) = 15435 by rw [round_eq]; norm_num]
    rfl
  · rw [show round ((3:ℚ)/10 * 44100) = 13230 by rw [round_eq]; norm_num]
    rfl
  · rw [show round ((8:ℚ)/100 * 44100) = 3528 by rw [round_eq]; norm_num]
    rfl

end MathApp
